import Mathlib

/-!
Verification of `MultiplicativeLSTMCell.py` (multiplicative LSTM cell with a
weight-normalized linear helper) against its natural-language specification.

The embedding works over exact rationals.  A tensor row is a `List ℚ`; a
weight matrix is a list of rows.  The tensor framework's numeric primitives
that the source merely calls (`tf.sigmoid`, `tf.norm`) are abstracted as a
record of functions `TFPrims`, since the source treats them as black boxes;
every definition below is otherwise a direct transcription of the Python
source.  Batch rows are independent in every operation the source uses, so a
single row is modelled.
-/

namespace MLSTM

/-- A tensor row (one batch element). -/
abbrev Vec := List ℚ

/-- A weight matrix, stored as a list of rows. -/
abbrev Mat := List Vec

/-- Numeric primitives supplied by the tensor framework: the logistic
sigmoid (`tf.sigmoid`) and the Euclidean vector norm (`tf.norm` along one
axis, applied per column).  The source calls them opaquely, so they are
parameters of the model. -/
structure TFPrims where
  sigmoid : ℚ → ℚ
  norm : Vec → ℚ

/-- Elementwise product of two rows (`tf.multiply` / `*`). -/
def vMul (a b : Vec) : Vec := List.zipWith (fun x y => x * y) a b

/-- Elementwise sum of two rows (`+`). -/
def vAdd (a b : Vec) : Vec := List.zipWith (fun x y => x + y) a b

/-- Adding a scalar to every entry (tensor + python float broadcast). -/
def addScalar (v : Vec) (s : ℚ) : Vec := v.map (fun x => x + s)

/-- Applying the sigmoid primitive elementwise (`tf.sigmoid`). -/
def vSigmoid (prims : TFPrims) (v : Vec) : Vec := v.map prims.sigmoid

/-- Applying an activation function elementwise (e.g. `tf.tanh`). -/
def vMap (f : ℚ → ℚ) (v : Vec) : Vec := v.map f

/-- Dot product of two rows. -/
def dot (a b : Vec) : ℚ := (List.zipWith (fun x y => x * y) a b).sum

/-- Column `j` of a matrix (missing entries read as `0`). -/
def matCol (M : Mat) (j : ℕ) : Vec := M.map (fun r => r.getD j 0)

/-- Row-vector times matrix (`tf.matmul` for a single batch row);
`outW` is the static column count of `M`. -/
def matmulRow (x : Vec) (M : Mat) (outW : ℕ) : Vec :=
  (List.range outW).map (fun j => dot x (matCol M j))

/-- `tf.clip_by_value(t, lo, hi)`: `min` with the upper bound, then `max`
with the lower bound, elementwise. -/
def clipByValue (v : Vec) (lo hi : ℚ) : Vec :=
  v.map (fun x => max (min x hi) lo)

/-- The learned parameters owned by one `_linear` scope: the direction
matrix `NormalColMatrix` (shape total-input-width × output width), the
per-column scale vector `Scalars`, and the bias vector `Bias`. -/
structure LinearParams where
  matrix : Mat
  scalars : Vec
  bias : Vec

/-- Per-column Euclidean norms `tf.norm(matrix, axis=0)`. -/
def colNorms (prims : TFPrims) (M : Mat) (outW : ℕ) : Vec :=
  (List.range outW).map (fun j => prims.norm (matCol M j))

/-- `_linear(args, output_size, bias, bias_start)` from the source:
reciprocal column norms, scaled by the `Scalars` vector, broadcast over the
rows of the direction matrix, then matrix-multiply with the (concatenated)
input, adding the bias when requested. -/
def _linear (prims : TFPrims) (p : LinearParams) (args : List Vec)
    (output_size : ℕ) (bias : Bool) : Vec :=
  let inv_norms := (colNorms prims p.matrix output_size).map (fun n => 1 / n)
  let scaled_norms := List.zipWith (fun x y => x * y) p.scalars inv_norms
  let scaled_matrix := p.matrix.map (fun r => List.zipWith (fun x y => x * y) r scaled_norms)
  let res :=
    if args.length = 1 then matmulRow (args.headD []) scaled_matrix output_size
    else matmulRow args.flatten scaled_matrix output_size
  if bias then vAdd res p.bias else res

/-- The realized weight matrix in the spec's words: each column `k` of the
direction matrix scaled by `scale[k] / EuclideanNorm(column k)`.  Stated
from the specification text, for comparison with `_linear`. -/
def realizedMatrixSpec (prims : TFPrims) (p : LinearParams) (outW : ℕ) : Mat :=
  p.matrix.map (fun r =>
    (List.range outW).map (fun k =>
      r.getD k 0 * (p.scalars.getD k 0 / prims.norm (matCol p.matrix k))))

/-- `NormalizedLinear` as the specification describes it: concatenated
input times the realized weight matrix, plus the bias when requested.
Stated from the specification text, for comparison with `_linear`. -/
def normalizedLinearSpec (prims : TFPrims) (p : LinearParams) (args : List Vec)
    (outW : ℕ) (useBias : Bool) : Vec :=
  let res := matmulRow args.flatten (realizedMatrixSpec prims p outW) outW
  if useBias then vAdd res p.bias else res

lemma getD_zipWith (f : ℚ → ℚ → ℚ) (a b : Vec) (j : ℕ)
    (hja : j < a.length) (hjb : j < b.length) :
    (List.zipWith f a b).getD j 0 = f (a.getD j 0) (b.getD j 0) := by
  induction a generalizing b j with
  | nil => simp at hja
  | cons x xs ih =>
    cases b with
    | nil => simp at hjb
    | cons y ys =>
      cases j with
      | zero => rfl
      | succ j =>
        simp only [List.zipWith_cons_cons, List.getD_cons_succ]
        exact ih ys j (by simpa using hja) (by simpa using hjb)

lemma getD_range_map (g : ℕ → ℚ) (n j : ℕ) (hj : j < n) :
    ((List.range n).map g).getD j 0 = g j := by
  have h : j < ((List.range n).map g).length := by simpa using hj
  rw [List.getD_eq_getElem _ _ h]
  simp

lemma length_matmulRow (x : Vec) (M : Mat) (outW : ℕ) :
    (matmulRow x M outW).length = outW := by
  simp [matmulRow]

/-- The columns the source computes (direction matrix times
`Scalars ⊙ (1/norms)`) coincide with the spec's realized matrix columns,
provided the parameters have their declared static shapes. -/
lemma matCol_scaled_eq_realized (prims : TFPrims) (p : LinearParams) (outW : ℕ)
    (hrows : ∀ r ∈ p.matrix, r.length = outW)
    (hscal : p.scalars.length = outW) (j : ℕ) (hj : j < outW) :
    matCol (p.matrix.map (fun r => List.zipWith (fun x y => x * y) r
      (List.zipWith (fun x y => x * y) p.scalars
        ((colNorms prims p.matrix outW).map (fun n => 1 / n))))) j
      = matCol (realizedMatrixSpec prims p outW) j := by
  unfold matCol realizedMatrixSpec
  simp only [List.map_map]
  refine List.map_congr_left (fun r hr => ?_)
  simp only [Function.comp_apply]
  have hlen_norms : ((colNorms prims p.matrix outW).map (fun n => 1 / n)).length = outW := by
    unfold colNorms
    simp
  have hcn : (colNorms prims p.matrix outW).length = outW := by
    unfold colNorms
    simp
  have hlen_sn : (List.zipWith (fun x y => x * y) p.scalars
      ((colNorms prims p.matrix outW).map (fun n => 1 / n))).length = outW := by
    simp [hscal, hcn]
  have h1 : (List.zipWith (fun x y => x * y) r
      (List.zipWith (fun x y => x * y) p.scalars
        ((colNorms prims p.matrix outW).map (fun n => 1 / n)))).getD j 0
      = r.getD j 0 * (p.scalars.getD j 0 *
          (((colNorms prims p.matrix outW).map (fun n => 1 / n)).getD j 0)) := by
    rw [getD_zipWith _ _ _ _ (by rw [hrows r hr]; exact hj) (by rw [hlen_sn]; exact hj)]
    rw [getD_zipWith _ _ _ _ (by rw [hscal]; exact hj) (by rw [hlen_norms]; exact hj)]
  have h2 : ((colNorms prims p.matrix outW).map (fun n => 1 / n)).getD j 0
      = 1 / prims.norm (matCol p.matrix j) := by
    unfold colNorms
    rw [List.map_map]
    exact getD_range_map _ outW j hj
  have h3 : ((List.range outW).map (fun k =>
      r.getD k 0 * (p.scalars.getD k 0 / prims.norm (matCol p.matrix k)))).getD j 0
      = r.getD j 0 * (p.scalars.getD j 0 / prims.norm (matCol p.matrix j)) :=
    getD_range_map _ outW j hj
  rw [h1, h2, h3, mul_one_div]

/-- `_linear` computes exactly the spec's `NormalizedLinear`, for parameters
of the declared static shapes. -/
lemma linear_eq_spec (prims : TFPrims) (p : LinearParams) (args : List Vec)
    (outW : ℕ) (useBias : Bool)
    (hrows : ∀ r ∈ p.matrix, r.length = outW)
    (hscal : p.scalars.length = outW) :
    _linear prims p args outW useBias = normalizedLinearSpec prims p args outW useBias := by
  unfold _linear normalizedLinearSpec
  have hcols : ∀ j < outW,
      matCol (p.matrix.map (fun r => List.zipWith (fun x y => x * y) r
        (List.zipWith (fun x y => x * y) p.scalars
          ((colNorms prims p.matrix outW).map (fun n => 1 / n))))) j
        = matCol (realizedMatrixSpec prims p outW) j :=
    fun j hj => matCol_scaled_eq_realized prims p outW hrows hscal j hj
  have hmm : ∀ x : Vec,
      matmulRow x (p.matrix.map (fun r => List.zipWith (fun x y => x * y) r
        (List.zipWith (fun x y => x * y) p.scalars
          ((colNorms prims p.matrix outW).map (fun n => 1 / n))))) outW
        = matmulRow x (realizedMatrixSpec prims p outW) outW := by
    intro x
    unfold matmulRow
    refine List.map_congr_left (fun j hj => ?_)
    rw [hcols j (List.mem_range.mp hj)]
  by_cases h1 : args.length = 1
  · have : args.headD [] = args.flatten := by
      cases args with
      | nil => simp at h1
      | cons a as =>
        cases as with
        | nil => simp
        | cons b bs => simp at h1
    simp only [h1, if_true, this, hmm]
  · simp only [h1, if_false, hmm]

/-- How a variable is initialized when created by `tf.get_variable`:
with the enclosing scope's default (no `initializer=` argument passed),
with a constant (`tf.constant_initializer(c)`), or with the cell's
configured initializer function. -/
inductive InitKind where
  | scopeDefault : InitKind
  | constant : ℚ → InitKind
  | configured : InitKind
deriving DecidableEq, Repr

/-- One `tf.get_variable` call: full scoped name, static shape, and how the
initial value is chosen. -/
structure VarSpec where
  name : String
  shape : List ℕ
  init : InitKind
deriving DecidableEq, Repr

/-- The variables `_linear` creates in its scope (`NormalColMatrix` and
`Scalars`, plus `Bias` when `bias` is true).  Transcribed from the
`tf.get_variable` calls in the source: `NormalColMatrix` is requested with
no initializer argument, `Scalars` with `constant_initializer(1.0)`, `Bias`
with `constant_initializer(bias_start)`. -/
def linearVars (scope : String) (total_arg_size output_size : ℕ)
    (bias : Bool) (bias_start : ℚ) : List VarSpec :=
  [⟨scope ++ "/NormalColMatrix", [total_arg_size, output_size], .scopeDefault⟩,
   ⟨scope ++ "/Scalars", [output_size], .constant 1⟩]
  ++ (if bias then [⟨scope ++ "/Bias", [output_size], .constant bias_start⟩] else [])

/-- The cell's construction-time configuration (`__init__` arguments).
`weightInit` models the `initializer` argument (which the constructor
stores in `self.initializer`); `activation` models the `activation`
argument. -/
structure CellConfig where
  num_units : ℕ
  use_peepholes : Bool
  cell_clip : Option ℚ
  weightInit : List ℕ → Mat
  num_proj : Option ℕ
  proj_clip : Option ℚ
  forget_bias : ℚ
  state_is_tuple : Bool
  activation : ℚ → ℚ

/-- The declared size of the recurrent state: an `LSTMStateTuple` of two
widths, or a single concatenated width. -/
inductive StateSize where
  | tup : ℕ → ℕ → StateSize
  | flat : ℕ → StateSize
deriving DecidableEq, Repr

/-- `state_size` from the source.  Note the Python guard is `if num_proj:`
(truthiness), so `num_proj = 0` falls to the no-projection branch here. -/
def state_size (cfg : CellConfig) : StateSize :=
  match cfg.num_proj with
  | some np =>
      if np ≠ 0 then
        (if cfg.state_is_tuple then .tup cfg.num_units np
         else .flat (cfg.num_units + np))
      else
        (if cfg.state_is_tuple then .tup cfg.num_units cfg.num_units
         else .flat (2 * cfg.num_units))
  | none =>
      if cfg.state_is_tuple then .tup cfg.num_units cfg.num_units
      else .flat (2 * cfg.num_units)

/-- `output_size` from the source (same Python truthiness guard). -/
def output_size (cfg : CellConfig) : ℕ :=
  match cfg.num_proj with
  | some np => if np ≠ 0 then np else cfg.num_units
  | none => cfg.num_units

/-- A concrete recurrent state: either an explicit `(c, h)` pair or a
single concatenated row, per the `state_is_tuple` flag. -/
inductive StateRep where
  | tuple : Vec → Vec → StateRep
  | flat : Vec → StateRep
deriving DecidableEq, Repr

/-- Whether a concrete state matches a declared `state_size`. -/
def stateMatches : StateRep → StateSize → Prop
  | .tuple c h, .tup a b => c.length = a ∧ h.length = b
  | .flat v, .flat n => v.length = n
  | _, _ => False

/-- `tf.slice(state, [0, s], [-1, l])` on one row: columns `s` to `s+l`. -/
def sliceRow (v : Vec) (s l : ℕ) : Vec := (v.drop s).take l

/-- Part `k` of `tf.split(v, parts, axis=1)` where each part has width `n`. -/
def chunk (v : Vec) (k n : ℕ) : Vec := (v.drop (k * n)).take n

/-- The learned parameters one full cell step reads: the two `_linear`
scopes (`Multipli_Weight` and `LSTM_Weight`), the peephole diagonal vectors
(read only when peepholes are enabled), and the projection matrix `W_P`
(read only when projection is enabled). -/
structure StepParams where
  multipli : LinearParams
  lstm : LinearParams
  w_f_diag : Vec
  w_i_diag : Vec
  w_o_diag : Vec
  w_proj : Mat

/-- The local `num_proj` of `__call__`:
`self.num_units if self.num_proj is None else self.num_proj`. -/
def callNumProj (cfg : CellConfig) : ℕ := cfg.num_proj.getD cfg.num_units

/-- State unpacking at the top of `__call__`: a tuple state is destructured
directly; a concatenated state is sliced into its first `num_units` columns
and the following `num_proj` columns. -/
def unpackState (cfg : CellConfig) (state : StateRep) : Vec × Vec :=
  if cfg.state_is_tuple then
    match state with
    | .tuple c h => (c, h)
    | .flat _ => ([], [])
  else
    match state with
    | .flat v => (sliceRow v 0 cfg.num_units, sliceRow v cfg.num_units (callNumProj cfg))
    | .tuple _ _ => ([], [])

/-- The multiplicative term `m = Wx * Wh`, where `Wx, Wh` are the two
halves of `_linear([inputs, h_prev], 2*num_units, True)` computed under the
`Multipli_Weight` scope (equation (18) of the mLSTM paper, per the source
comment). -/
def cellM (prims : TFPrims) (cfg : CellConfig) (p : StepParams)
    (inputs h_prev : Vec) : Vec :=
  let concat := _linear prims p.multipli [inputs, h_prev] (2 * cfg.num_units) true
  let Wx := chunk concat 0 cfg.num_units
  let Wh := chunk concat 1 cfg.num_units
  vMul Wx Wh

/-- `lstm_matrix = _linear([inputs, m], 4 * num_units, True)` under the
`LSTM_Weight` scope. -/
def cellLstmMatrix (prims : TFPrims) (cfg : CellConfig) (p : StepParams)
    (inputs h_prev : Vec) : Vec :=
  _linear prims p.lstm [inputs, cellM prims cfg p inputs h_prev] (4 * cfg.num_units) true

/-- The four gate pre-activations `i, j, f, o = split(lstm_matrix, 4)`. -/
def cellGate (prims : TFPrims) (cfg : CellConfig) (p : StepParams)
    (inputs h_prev : Vec) (k : ℕ) : Vec :=
  chunk (cellLstmMatrix prims cfg p inputs h_prev) k cfg.num_units

/-- The cell-state update before clipping: the peephole branch
`c_prev * sigmoid(f + forget_bias + w_f_diag * c_prev)
 + sigmoid(i + w_i_diag * c_prev) * j`,
or the plain branch `c_prev * sigmoid(f + forget_bias) + sigmoid(i) * j`. -/
def cellCRaw (prims : TFPrims) (cfg : CellConfig) (p : StepParams)
    (inputs c_prev h_prev : Vec) : Vec :=
  let i := cellGate prims cfg p inputs h_prev 0
  let j := cellGate prims cfg p inputs h_prev 1
  let f := cellGate prims cfg p inputs h_prev 2
  if cfg.use_peepholes then
    vAdd (vMul c_prev (vSigmoid prims (vAdd (addScalar f cfg.forget_bias) (vMul p.w_f_diag c_prev))))
         (vMul (vSigmoid prims (vAdd i (vMul p.w_i_diag c_prev))) j)
  else
    vAdd (vMul c_prev (vSigmoid prims (addScalar f cfg.forget_bias)))
         (vMul (vSigmoid prims i) j)

/-- The cell state after the optional `cell_clip`. -/
def cellC (prims : TFPrims) (cfg : CellConfig) (p : StepParams)
    (inputs c_prev h_prev : Vec) : Vec :=
  match cfg.cell_clip with
  | some K => clipByValue (cellCRaw prims cfg p inputs c_prev h_prev) (-K) K
  | none => cellCRaw prims cfg p inputs c_prev h_prev

/-- The hidden state before the optional projection: the peephole branch
`sigmoid(o + w_o_diag * c) * activation(c * (o + w_o_diag * c))`, or the
plain branch `activation(c * o)`; `c` is the post-clip cell state. -/
def cellHRaw (prims : TFPrims) (cfg : CellConfig) (p : StepParams)
    (inputs c_prev h_prev : Vec) : Vec :=
  let o := cellGate prims cfg p inputs h_prev 3
  let c := cellC prims cfg p inputs c_prev h_prev
  if cfg.use_peepholes then
    vMul (vSigmoid prims (vAdd o (vMul p.w_o_diag c)))
         (vMap cfg.activation (vMul c (vAdd o (vMul p.w_o_diag c))))
  else
    vMap cfg.activation (vMul c o)

/-- The hidden state after the optional projection `h = matmul(h, W_P)`
and the optional `proj_clip`. -/
def cellH (prims : TFPrims) (cfg : CellConfig) (p : StepParams)
    (inputs c_prev h_prev : Vec) : Vec :=
  match cfg.num_proj with
  | some np =>
      let h := matmulRow (cellHRaw prims cfg p inputs c_prev h_prev) p.w_proj np
      (match cfg.proj_clip with
       | some K => clipByValue h (-K) K
       | none => h)
  | none => cellHRaw prims cfg p inputs c_prev h_prev

/-- The full `__call__` step: unpack the state, run the update, and package
`(output, new_state)` with the new state as a tuple or a concatenation per
`state_is_tuple`. -/
def cellStep (prims : TFPrims) (cfg : CellConfig) (p : StepParams)
    (inputs : Vec) (state : StateRep) : Vec × StateRep :=
  let cp_hp := unpackState cfg state
  let c := cellC prims cfg p inputs cp_hp.1 cp_hp.2
  let h := cellH prims cfg p inputs cp_hp.1 cp_hp.2
  let new_state : StateRep :=
    if cfg.state_is_tuple then .tuple c h else .flat (c ++ h)
  (h, new_state)

/-- The variables `__call__` creates on first use, in creation order, with
their scoped names, shapes, and initialization: the two `_linear` scopes,
then the three peephole diagonals (only if `use_peepholes`), then the
projection matrix (only if `num_proj is not None`).  None of the
`tf.get_variable` calls in the source passes `self.initializer`. -/
def cellVars (cfg : CellConfig) (input_size : ℕ) : List VarSpec :=
  linearVars "Multipli_Weight/Linear" (input_size + callNumProj cfg)
    (2 * cfg.num_units) true 0
  ++ linearVars "LSTM_Weight/Linear" (input_size + cfg.num_units)
    (4 * cfg.num_units) true 0
  ++ (if cfg.use_peepholes then
        [⟨"W_F_diag", [cfg.num_units], .scopeDefault⟩,
         ⟨"W_I_diag", [cfg.num_units], .scopeDefault⟩,
         ⟨"W_O_diag", [cfg.num_units], .scopeDefault⟩]
      else [])
  ++ (match cfg.num_proj with
      | some np => [⟨"W_P", [cfg.num_units, np], .scopeDefault⟩]
      | none => [])

/-- The multiplicative term as the specification states it: the elementwise
product of the two halves of `NormalizedLinear([x, h_prev], 2*num_units,
bias=true)`.  Stated from the specification text, for comparison with
`cellM`. -/
def claimM (prims : TFPrims) (cfg : CellConfig) (p : StepParams)
    (inputs h_prev : Vec) : Vec :=
  let wxwh := normalizedLinearSpec prims p.multipli [inputs, h_prev] (2 * cfg.num_units) true
  vMul (wxwh.take cfg.num_units) ((wxwh.drop cfg.num_units).take cfg.num_units)

/-- The gate pre-activation vector as the specification states it:
`NormalizedLinear([x, m], 4*num_units, bias=true)`.  Stated from the
specification text. -/
def claimGates (prims : TFPrims) (cfg : CellConfig) (p : StepParams)
    (inputs h_prev : Vec) : Vec :=
  normalizedLinearSpec prims p.lstm
    [inputs, claimM prims cfg p inputs h_prev] (4 * cfg.num_units) true

/-- Quarter `k` of the spec's gate vector (`i, j, f, o` are quarters
`0, 1, 2, 3`).  Stated from the specification text. -/
def claimQuarter (prims : TFPrims) (cfg : CellConfig) (p : StepParams)
    (inputs h_prev : Vec) (k : ℕ) : Vec :=
  ((claimGates prims cfg p inputs h_prev).drop (k * cfg.num_units)).take cfg.num_units

/-- The new cell state as the specification states it:
`c = c_prev*sigmoid(f + forget_bias + w_f_diag*c_prev)
   + sigmoid(i + w_i_diag*c_prev)*j` with peepholes, else
`c = c_prev*sigmoid(f + forget_bias) + sigmoid(i)*j`.  Stated from the
specification text, for comparison with `cellCRaw`. -/
def claimC (prims : TFPrims) (cfg : CellConfig) (p : StepParams)
    (inputs c_prev h_prev : Vec) : Vec :=
  let i := claimQuarter prims cfg p inputs h_prev 0
  let j := claimQuarter prims cfg p inputs h_prev 1
  let f := claimQuarter prims cfg p inputs h_prev 2
  if cfg.use_peepholes then
    vAdd (vMul c_prev (vSigmoid prims (vAdd (addScalar f cfg.forget_bias) (vMul p.w_f_diag c_prev))))
         (vMul (vSigmoid prims (vAdd i (vMul p.w_i_diag c_prev))) j)
  else
    vAdd (vMul c_prev (vSigmoid prims (addScalar f cfg.forget_bias)))
         (vMul (vSigmoid prims i) j)

/-- The spec's cell state after the optional clip. -/
def claimCClipped (prims : TFPrims) (cfg : CellConfig) (p : StepParams)
    (inputs c_prev h_prev : Vec) : Vec :=
  match cfg.cell_clip with
  | some K => clipByValue (claimC prims cfg p inputs c_prev h_prev) (-K) K
  | none => claimC prims cfg p inputs c_prev h_prev

/-- The new hidden state as the claim states it:
`h = sigmoid(o + w_o_diag*c) * activation(c * (o + w_o_diag*c))` with
peepholes, else `h = activation(c * o)`, where `c` is the post-clip cell
state and `o` the raw (un-sigmoided) output-gate pre-activation.  Stated
from the specification text, for comparison with `cellHRaw`. -/
def claimH (prims : TFPrims) (cfg : CellConfig) (p : StepParams)
    (inputs c_prev h_prev : Vec) : Vec :=
  let o := claimQuarter prims cfg p inputs h_prev 3
  let c := claimCClipped prims cfg p inputs c_prev h_prev
  if cfg.use_peepholes then
    vMul (vSigmoid prims (vAdd o (vMul p.w_o_diag c)))
         (vMap cfg.activation (vMul c (vAdd o (vMul p.w_o_diag c))))
  else
    vMap cfg.activation (vMul c o)

lemma cellM_eq_claim (prims : TFPrims) (cfg : CellConfig) (p : StepParams)
    (inputs h_prev : Vec)
    (h2r : ∀ r ∈ p.multipli.matrix, r.length = 2 * cfg.num_units)
    (h2s : p.multipli.scalars.length = 2 * cfg.num_units) :
    cellM prims cfg p inputs h_prev = claimM prims cfg p inputs h_prev := by
  unfold cellM claimM chunk
  rw [linear_eq_spec prims p.multipli [inputs, h_prev] (2 * cfg.num_units) true h2r h2s]
  simp

lemma cellGate_eq_claim (prims : TFPrims) (cfg : CellConfig) (p : StepParams)
    (inputs h_prev : Vec) (k : ℕ)
    (h2r : ∀ r ∈ p.multipli.matrix, r.length = 2 * cfg.num_units)
    (h2s : p.multipli.scalars.length = 2 * cfg.num_units)
    (h4r : ∀ r ∈ p.lstm.matrix, r.length = 4 * cfg.num_units)
    (h4s : p.lstm.scalars.length = 4 * cfg.num_units) :
    cellGate prims cfg p inputs h_prev k = claimQuarter prims cfg p inputs h_prev k := by
  unfold cellGate cellLstmMatrix claimQuarter claimGates chunk
  rw [cellM_eq_claim prims cfg p inputs h_prev h2r h2s]
  rw [linear_eq_spec prims p.lstm [inputs, claimM prims cfg p inputs h_prev]
      (4 * cfg.num_units) true h4r h4s]

lemma cellCRaw_eq_claim (prims : TFPrims) (cfg : CellConfig) (p : StepParams)
    (inputs c_prev h_prev : Vec)
    (h2r : ∀ r ∈ p.multipli.matrix, r.length = 2 * cfg.num_units)
    (h2s : p.multipli.scalars.length = 2 * cfg.num_units)
    (h4r : ∀ r ∈ p.lstm.matrix, r.length = 4 * cfg.num_units)
    (h4s : p.lstm.scalars.length = 4 * cfg.num_units) :
    cellCRaw prims cfg p inputs c_prev h_prev = claimC prims cfg p inputs c_prev h_prev := by
  unfold cellCRaw claimC
  rw [cellGate_eq_claim prims cfg p inputs h_prev 0 h2r h2s h4r h4s,
      cellGate_eq_claim prims cfg p inputs h_prev 1 h2r h2s h4r h4s,
      cellGate_eq_claim prims cfg p inputs h_prev 2 h2r h2s h4r h4s]

lemma cellC_eq_claim (prims : TFPrims) (cfg : CellConfig) (p : StepParams)
    (inputs c_prev h_prev : Vec)
    (h2r : ∀ r ∈ p.multipli.matrix, r.length = 2 * cfg.num_units)
    (h2s : p.multipli.scalars.length = 2 * cfg.num_units)
    (h4r : ∀ r ∈ p.lstm.matrix, r.length = 4 * cfg.num_units)
    (h4s : p.lstm.scalars.length = 4 * cfg.num_units) :
    cellC prims cfg p inputs c_prev h_prev = claimCClipped prims cfg p inputs c_prev h_prev := by
  unfold cellC claimCClipped
  rw [cellCRaw_eq_claim prims cfg p inputs c_prev h_prev h2r h2s h4r h4s]

lemma cellHRaw_eq_claim (prims : TFPrims) (cfg : CellConfig) (p : StepParams)
    (inputs c_prev h_prev : Vec)
    (h2r : ∀ r ∈ p.multipli.matrix, r.length = 2 * cfg.num_units)
    (h2s : p.multipli.scalars.length = 2 * cfg.num_units)
    (h4r : ∀ r ∈ p.lstm.matrix, r.length = 4 * cfg.num_units)
    (h4s : p.lstm.scalars.length = 4 * cfg.num_units) :
    cellHRaw prims cfg p inputs c_prev h_prev = claimH prims cfg p inputs c_prev h_prev := by
  unfold cellHRaw claimH
  rw [cellGate_eq_claim prims cfg p inputs h_prev 3 h2r h2s h4r h4s,
      cellC_eq_claim prims cfg p inputs c_prev h_prev h2r h2s h4r h4s]

/-- Concrete primitives for evaluation: identity sigmoid and
sum-of-squares norm stand in for the abstract framework functions. -/
def prims0 : TFPrims := ⟨fun x => x, fun v => (v.map (fun x => x * x)).sum⟩

/-- Concrete `Multipli_Weight` parameters (`num_units = 1`, input width 1,
hidden width 1). -/
def mp0 : LinearParams := ⟨[[1, 2], [1, 0]], [1, 1], [0, 0]⟩

/-- Concrete `LSTM_Weight` parameters (`num_units = 1`). -/
def lp0 : LinearParams := ⟨[[1, 0, 2, 1], [0, 1, 1, 3]], [1, 1, 1, 1], [0, 0, 0, 0]⟩

/-- Concrete step parameters for `num_units = 1`. -/
def sp0 : StepParams := ⟨mp0, lp0, [2], [3], [4], [[1]]⟩

/-- A concrete peephole configuration with one hidden unit. -/
def cfg0 : CellConfig :=
  ⟨1, true, none, fun _ => [], none, none, 1, true, fun x => x⟩

lemma headD_mem {l : List ℚ} (h : l ≠ []) (d : ℚ) : l.headD d ∈ l := by
  cases l with
  | nil => exact absurd rfl h
  | cons x xs => simp

/-- C1: for every input and previous state, the step computes the new cell
state exactly as specified: `Wx` and `Wh` are the two halves of
`NormalizedLinear([x, h_prev], 2*num_units, bias=true)`, `m = Wx * Wh`
elementwise, `i, j, f, o` are the four quarters of
`NormalizedLinear([x, m], 4*num_units, bias=true)`, and
`c = c_prev*sigmoid(f + forget_bias + w_f_diag*c_prev)
   + sigmoid(i + w_i_diag*c_prev)*j` with peepholes enabled, else
`c = c_prev*sigmoid(f + forget_bias) + sigmoid(i)*j`; the linear-map
parameters are assumed to have their declared static shapes. -/
theorem cell_update_matches_spec (prims : TFPrims) (cfg : CellConfig)
    (p : StepParams) (inputs c_prev h_prev : Vec)
    (h2r : ∀ r ∈ p.multipli.matrix, r.length = 2 * cfg.num_units)
    (h2s : p.multipli.scalars.length = 2 * cfg.num_units)
    (h4r : ∀ r ∈ p.lstm.matrix, r.length = 4 * cfg.num_units)
    (h4s : p.lstm.scalars.length = 4 * cfg.num_units) :
    cellCRaw prims cfg p inputs c_prev h_prev = claimC prims cfg p inputs c_prev h_prev :=
  cellCRaw_eq_claim prims cfg p inputs c_prev h_prev h2r h2s h4r h4s

/-- Witness for C1 at a concrete peephole configuration. -/
theorem cell_update_matches_spec_witness :
    cellCRaw prims0 cfg0 sp0 [1] [1] [1] = claimC prims0 cfg0 sp0 [1] [1] [1] :=
  cell_update_matches_spec prims0 cfg0 sp0 [1] [1] [1]
    (by decide) (by decide) (by decide) (by decide)

/-- C2: the new hidden state multiplies the post-clip cell state `c` by the
raw, un-sigmoided output-gate value inside the activation argument: with
peepholes, `h = sigmoid(o + w_o_diag*c) * activation(c * (o + w_o_diag*c))`;
without, `h = activation(c * o)`; the linear-map parameters are assumed to
have their declared static shapes. -/
theorem hidden_update_uses_raw_output_gate (prims : TFPrims) (cfg : CellConfig)
    (p : StepParams) (inputs c_prev h_prev : Vec)
    (h2r : ∀ r ∈ p.multipli.matrix, r.length = 2 * cfg.num_units)
    (h2s : p.multipli.scalars.length = 2 * cfg.num_units)
    (h4r : ∀ r ∈ p.lstm.matrix, r.length = 4 * cfg.num_units)
    (h4s : p.lstm.scalars.length = 4 * cfg.num_units) :
    cellHRaw prims cfg p inputs c_prev h_prev = claimH prims cfg p inputs c_prev h_prev :=
  cellHRaw_eq_claim prims cfg p inputs c_prev h_prev h2r h2s h4r h4s

/-- Witness for C2 at a concrete peephole configuration. -/
theorem hidden_update_uses_raw_output_gate_witness :
    cellHRaw prims0 cfg0 sp0 [1] [1] [1] = claimH prims0 cfg0 sp0 [1] [1] [1] :=
  hidden_update_uses_raw_output_gate prims0 cfg0 sp0 [1] [1] [1]
    (by decide) (by decide) (by decide) (by decide)

/-- C3: for every non-empty input list, the linear map's output equals the
concatenated input times the realized weight matrix (each column of the
direction matrix scaled by `scale[k] / EuclideanNorm(column k)`), plus the
bias when requested; and the bias variable is created with
`constant_initializer(bias_start)` (default 0).  Parameters are assumed to
have their declared static shapes. -/
theorem linear_map_is_weight_normalized (prims : TFPrims) (p : LinearParams)
    (args : List Vec) (outW : ℕ) (useBias : Bool)
    (hne : args ≠ [])
    (hrows : ∀ r ∈ p.matrix, r.length = outW)
    (hscal : p.scalars.length = outW) :
    _linear prims p args outW useBias = normalizedLinearSpec prims p args outW useBias
    ∧ ∀ scope total bs, useBias = true →
        VarSpec.mk (scope ++ "/Bias") [outW] (.constant bs)
          ∈ linearVars scope total outW useBias bs := by
  refine ⟨linear_eq_spec prims p args outW useBias hrows hscal, ?_⟩
  intro scope total bs hb
  subst hb
  simp [linearVars]

/-- Witness for C3 at concrete parameters. -/
theorem linear_map_is_weight_normalized_witness :
    _linear prims0 mp0 [[1], [1]] 2 true = normalizedLinearSpec prims0 mp0 [[1], [1]] 2 true
    ∧ VarSpec.mk "L/Bias" [2] (.constant 3)
        ∈ linearVars "L" 5 2 true 3 :=
  ⟨(linear_map_is_weight_normalized prims0 mp0 [[1], [1]] 2 true
      (by decide) (by decide) (by decide)).1,
   (linear_map_is_weight_normalized prims0 mp0 [[1], [1]] 2 true
      (by decide) (by decide) (by decide)).2 "L" 5 3 rfl⟩

lemma mem_clipByValue_bounds (v : Vec) (K : ℚ) (hK : 0 ≤ K) :
    ∀ y ∈ clipByValue v (-K) K, -K ≤ y ∧ y ≤ K := by
  intro y hy
  simp only [clipByValue, List.mem_map] at hy
  obtain ⟨x, _, rfl⟩ := hy
  refine ⟨le_max_right _ _, max_le (min_le_right _ _) (by linarith)⟩

/-- A concrete configuration with both clips and projection enabled,
peepholes disabled (`num_units = 1`, `num_proj = 1`). -/
def cfg4 : CellConfig :=
  ⟨1, false, some 1, fun _ => [], some 1, some 1, 1, true, fun x => x⟩

/-- C4: with `cell_clip = K` (`K ≥ 0`), the clip is applied to the raw cell
update (after the update, before `h`), and every element of the resulting
cell state lies in `[-K, K]`; with `proj_clip = K` and projection enabled,
every element of the returned output lies in `[-K, K]`. -/
theorem clip_bounds_cell_and_proj (prims : TFPrims) (cfg : CellConfig)
    (p : StepParams) (inputs c_prev h_prev : Vec) :
    (∀ K, cfg.cell_clip = some K → 0 ≤ K →
       cellC prims cfg p inputs c_prev h_prev
         = clipByValue (cellCRaw prims cfg p inputs c_prev h_prev) (-K) K
       ∧ ∀ y ∈ cellC prims cfg p inputs c_prev h_prev, -K ≤ y ∧ y ≤ K)
    ∧ (∀ K np, cfg.num_proj = some np → cfg.proj_clip = some K → 0 ≤ K →
       ∀ y ∈ cellH prims cfg p inputs c_prev h_prev, -K ≤ y ∧ y ≤ K) := by
  constructor
  · intro K hclip hK
    constructor
    · simp [cellC, hclip]
    · simp only [cellC, hclip]
      exact mem_clipByValue_bounds _ K hK
  · intro K np hnp hpc hK
    simp only [cellH, hnp, hpc]
    exact mem_clipByValue_bounds _ K hK

/-- Witness for C4 at a concrete clipped configuration. -/
theorem clip_bounds_cell_and_proj_witness :
    (-1 ≤ (cellC prims0 cfg4 sp0 [1] [1] [1]).headD 0
      ∧ (cellC prims0 cfg4 sp0 [1] [1] [1]).headD 0 ≤ 1)
    ∧ (-1 ≤ (cellH prims0 cfg4 sp0 [1] [1] [1]).headD 0
      ∧ (cellH prims0 cfg4 sp0 [1] [1] [1]).headD 0 ≤ 1) :=
  ⟨((clip_bounds_cell_and_proj prims0 cfg4 sp0 [1] [1] [1]).1 1 rfl
      (by norm_num)).2 _ (headD_mem (by decide) 0),
   (clip_bounds_cell_and_proj prims0 cfg4 sp0 [1] [1] [1]).2 1 1 rfl rfl
      (by norm_num) _ (headD_mem (by decide) 0)⟩

lemma length_vMul (a b : Vec) : (vMul a b).length = min a.length b.length := by
  simp [vMul]

lemma length_vAdd (a b : Vec) : (vAdd a b).length = min a.length b.length := by
  simp [vAdd]

lemma length_vSigmoid (prims : TFPrims) (v : Vec) :
    (vSigmoid prims v).length = v.length := by
  simp [vSigmoid]

lemma length_addScalar (v : Vec) (c : ℚ) : (addScalar v c).length = v.length := by
  simp [addScalar]

lemma length_vMap (f : ℚ → ℚ) (v : Vec) : (vMap f v).length = v.length := by
  simp [vMap]

lemma length_clipByValue (v : Vec) (lo hi : ℚ) :
    (clipByValue v lo hi).length = v.length := by
  simp [clipByValue]

lemma length_chunk (v : Vec) (k n : ℕ) :
    (chunk v k n).length = min n (v.length - k * n) := by
  simp [chunk]

lemma length_linear_bias (prims : TFPrims) (p : LinearParams) (args : List Vec)
    (outW : ℕ) : (_linear prims p args outW true).length = min outW p.bias.length := by
  by_cases h : args.length = 1 <;> simp [_linear, h, vAdd, length_matmulRow]

lemma length_cellLstmMatrix (prims : TFPrims) (cfg : CellConfig) (p : StepParams)
    (inputs h_prev : Vec) (hbl : p.lstm.bias.length = 4 * cfg.num_units) :
    (cellLstmMatrix prims cfg p inputs h_prev).length = 4 * cfg.num_units := by
  simp [cellLstmMatrix, length_linear_bias, hbl]

lemma length_cellGate (prims : TFPrims) (cfg : CellConfig) (p : StepParams)
    (inputs h_prev : Vec) (k : ℕ) (hk : k ≤ 3)
    (hbl : p.lstm.bias.length = 4 * cfg.num_units) :
    (cellGate prims cfg p inputs h_prev k).length = cfg.num_units := by
  rw [cellGate, length_chunk, length_cellLstmMatrix prims cfg p inputs h_prev hbl]
  interval_cases k <;> omega

lemma length_cellCRaw (prims : TFPrims) (cfg : CellConfig) (p : StepParams)
    (inputs c_prev h_prev : Vec)
    (hc : c_prev.length = cfg.num_units)
    (hbl : p.lstm.bias.length = 4 * cfg.num_units)
    (hwf : p.w_f_diag.length = cfg.num_units)
    (hwi : p.w_i_diag.length = cfg.num_units) :
    (cellCRaw prims cfg p inputs c_prev h_prev).length = cfg.num_units := by
  have hi := length_cellGate prims cfg p inputs h_prev 0 (by omega) hbl
  have hj := length_cellGate prims cfg p inputs h_prev 1 (by omega) hbl
  have hf := length_cellGate prims cfg p inputs h_prev 2 (by omega) hbl
  cases hpeep : cfg.use_peepholes <;>
    simp [cellCRaw, hpeep, length_vAdd, length_vMul, length_vSigmoid,
      length_addScalar, hi, hj, hf, hc, hwf, hwi]

lemma length_cellC (prims : TFPrims) (cfg : CellConfig) (p : StepParams)
    (inputs c_prev h_prev : Vec)
    (hc : c_prev.length = cfg.num_units)
    (hbl : p.lstm.bias.length = 4 * cfg.num_units)
    (hwf : p.w_f_diag.length = cfg.num_units)
    (hwi : p.w_i_diag.length = cfg.num_units) :
    (cellC prims cfg p inputs c_prev h_prev).length = cfg.num_units := by
  have hraw := length_cellCRaw prims cfg p inputs c_prev h_prev hc hbl hwf hwi
  cases hclip : cfg.cell_clip <;> simp [cellC, hclip, length_clipByValue, hraw]

lemma length_cellHRaw (prims : TFPrims) (cfg : CellConfig) (p : StepParams)
    (inputs c_prev h_prev : Vec)
    (hc : c_prev.length = cfg.num_units)
    (hbl : p.lstm.bias.length = 4 * cfg.num_units)
    (hwf : p.w_f_diag.length = cfg.num_units)
    (hwi : p.w_i_diag.length = cfg.num_units)
    (hwo : p.w_o_diag.length = cfg.num_units) :
    (cellHRaw prims cfg p inputs c_prev h_prev).length = cfg.num_units := by
  have ho := length_cellGate prims cfg p inputs h_prev 3 (by omega) hbl
  have hcc := length_cellC prims cfg p inputs c_prev h_prev hc hbl hwf hwi
  cases hpeep : cfg.use_peepholes <;>
    simp [cellHRaw, hpeep, length_vMul, length_vSigmoid, length_vAdd,
      length_vMap, ho, hcc, hwo]

lemma length_cellH (prims : TFPrims) (cfg : CellConfig) (p : StepParams)
    (inputs c_prev h_prev : Vec)
    (hc : c_prev.length = cfg.num_units)
    (hbl : p.lstm.bias.length = 4 * cfg.num_units)
    (hwf : p.w_f_diag.length = cfg.num_units)
    (hwi : p.w_i_diag.length = cfg.num_units)
    (hwo : p.w_o_diag.length = cfg.num_units) :
    (cellH prims cfg p inputs c_prev h_prev).length = callNumProj cfg := by
  have hraw := length_cellHRaw prims cfg p inputs c_prev h_prev hc hbl hwf hwi hwo
  rcases hnp : cfg.num_proj with _ | np
  · simp [cellH, hnp, hraw, callNumProj]
  · rcases hpc : cfg.proj_clip with _ | K <;>
      simp [cellH, hnp, hpc, length_clipByValue, length_matmulRow, callNumProj]

/-- C5: for a well-shaped invocation of a valid configuration, the new cell
state has width `num_units`, the output has width `output_size` (the
projection size when projection is enabled, else `num_units`), and the
packaged new state (tuple or concatenation per `state_is_tuple`) matches
the declared `state_size`. -/
theorem state_shape_invariant (prims : TFPrims) (cfg : CellConfig)
    (p : StepParams) (inputs c_prev h_prev : Vec) (state : StateRep)
    (hstate : unpackState cfg state = (c_prev, h_prev))
    (hc : c_prev.length = cfg.num_units)
    (hbl : p.lstm.bias.length = 4 * cfg.num_units)
    (hwf : p.w_f_diag.length = cfg.num_units)
    (hwi : p.w_i_diag.length = cfg.num_units)
    (hwo : p.w_o_diag.length = cfg.num_units)
    (hvalid : cfg.num_proj ≠ some 0) :
    (cellC prims cfg p inputs c_prev h_prev).length = cfg.num_units
    ∧ (cellStep prims cfg p inputs state).1.length = output_size cfg
    ∧ stateMatches (cellStep prims cfg p inputs state).2 (state_size cfg) := by
  have hcl := length_cellC prims cfg p inputs c_prev h_prev hc hbl hwf hwi
  have hhl := length_cellH prims cfg p inputs c_prev h_prev hc hbl hwf hwi hwo
  have hout : output_size cfg = callNumProj cfg := by
    rcases hnp : cfg.num_proj with _ | np
    · simp [output_size, callNumProj, hnp]
    · have hne : np ≠ 0 := fun h => hvalid (by rw [hnp, h])
      simp [output_size, callNumProj, hnp, hne]
  have hstep1 : (cellStep prims cfg p inputs state).1
      = cellH prims cfg p inputs c_prev h_prev := by
    simp [cellStep, hstate]
  have hstep2 : (cellStep prims cfg p inputs state).2
      = (if cfg.state_is_tuple then
          StateRep.tuple (cellC prims cfg p inputs c_prev h_prev)
            (cellH prims cfg p inputs c_prev h_prev)
         else StateRep.flat (cellC prims cfg p inputs c_prev h_prev
            ++ cellH prims cfg p inputs c_prev h_prev)) := by
    simp [cellStep, hstate]
  refine ⟨hcl, by rw [hstep1, hhl, hout], ?_⟩
  rw [hstep2]
  rcases hnp : cfg.num_proj with _ | np
  · have hnp2 : callNumProj cfg = cfg.num_units := by simp [callNumProj, hnp]
    cases ht : cfg.state_is_tuple <;>
      simp [stateMatches, state_size, hnp, ht, hcl, hhl, hnp2] <;> omega
  · have hne : np ≠ 0 := fun h => hvalid (by rw [hnp, h])
    have hnp2 : callNumProj cfg = np := by simp [callNumProj, hnp]
    cases ht : cfg.state_is_tuple <;>
      simp [stateMatches, state_size, hnp, ht, hne, hcl, hhl, hnp2]

/-- Witness for C5 at a concrete configuration. -/
theorem state_shape_invariant_witness :
    (cellC prims0 cfg0 sp0 [1] [1] [1]).length = cfg0.num_units
    ∧ (cellStep prims0 cfg0 sp0 [1] (.tuple [1] [1])).1.length = output_size cfg0
    ∧ stateMatches (cellStep prims0 cfg0 sp0 [1] (.tuple [1] [1])).2 (state_size cfg0) :=
  state_shape_invariant prims0 cfg0 sp0 [1] [1] [1] (.tuple [1] [1])
    rfl (by decide) (by decide) (by decide) (by decide) (by decide) (by decide)

/-- C8: with peepholes disabled, the step creates no peephole diagonal
variables, its result does not depend on the peephole parameter values,
and the update is exactly the plain form
`c = c_prev*sigmoid(f + forget_bias) + sigmoid(i)*j`,
`h = activation(c*o)`. -/
theorem no_peephole_frame (prims : TFPrims) (cfg : CellConfig) (p : StepParams)
    (inputs c_prev h_prev : Vec) (state : StateRep) (inW : ℕ)
    (hpeep : cfg.use_peepholes = false) :
    ("W_F_diag" ∉ (cellVars cfg inW).map VarSpec.name
      ∧ "W_I_diag" ∉ (cellVars cfg inW).map VarSpec.name
      ∧ "W_O_diag" ∉ (cellVars cfg inW).map VarSpec.name)
    ∧ (∀ wf wi wo, cellStep prims cfg
        { p with w_f_diag := wf, w_i_diag := wi, w_o_diag := wo } inputs state
        = cellStep prims cfg p inputs state)
    ∧ cellCRaw prims cfg p inputs c_prev h_prev
        = vAdd (vMul c_prev (vSigmoid prims
            (addScalar (cellGate prims cfg p inputs h_prev 2) cfg.forget_bias)))
          (vMul (vSigmoid prims (cellGate prims cfg p inputs h_prev 0))
            (cellGate prims cfg p inputs h_prev 1))
    ∧ cellHRaw prims cfg p inputs c_prev h_prev
        = vMap cfg.activation (vMul (cellC prims cfg p inputs c_prev h_prev)
            (cellGate prims cfg p inputs h_prev 3)) := by
  refine ⟨?_, ?_, ?_, ?_⟩
  · refine ⟨?_, ?_, ?_⟩ <;>
      rcases hnp : cfg.num_proj with _ | np <;>
        simp [cellVars, linearVars, hnp, hpeep]
  · intro wf wi wo
    simp [cellStep, cellH, cellHRaw, cellC, cellCRaw, cellGate,
      cellLstmMatrix, cellM, hpeep]
  · simp [cellCRaw, hpeep]
  · simp [cellHRaw, hpeep]

/-- Witness for C8 at a concrete peephole-free configuration: the step
ignores arbitrary peephole parameter values. -/
theorem no_peephole_frame_witness :
    cellStep prims0 cfg4
      { sp0 with w_f_diag := [7], w_i_diag := [8], w_o_diag := [9] }
      [1] (.tuple [1] [1])
    = cellStep prims0 cfg4 sp0 [1] (.tuple [1] [1]) :=
  (no_peephole_frame prims0 cfg4 sp0 [1] [1] [1] (.tuple [1] [1]) 1 rfl).2.1 [7] [8] [9]

/-- The argument-validation loop of `_linear`, over static shapes
(`None` dimensions are unknown): rejects a shape that is not rank-2, and a
feature dimension that is `None` or `0` (the Python test `if not shape[1]`
catches both); otherwise accumulates the total feature width. -/
def sumArgWidths : List (List (Option ℕ)) → Except String ℕ
  | [] => .ok 0
  | shape :: rest =>
      if shape.length ≠ 2 then .error "Linear is expecting 2D arguments"
      else
        match shape.getD 1 none with
        | none => .error "Linear expects shape of arguments"
        | some w =>
            if w = 0 then .error "Linear expects shape of arguments"
            else
              match sumArgWidths rest with
              | .error e => .error e
              | .ok t => .ok (w + t)

/-- The `args` validation of `_linear`: `args` may be absent (`None`) or an
empty list, both rejected; otherwise each static shape is checked. -/
def linearCheckArgs : Option (List (List (Option ℕ))) → Except String ℕ
  | none => .error "args must be specified"
  | some l => if l = [] then .error "args must be specified" else sumArgWidths l

/-- The input-size check of `__call__`:
`inputs.get_shape().with_rank(2)[1]` (an error if the rank is not 2),
then an explicit error if that dimension has no static value. -/
def callInputSize (shape : List (Option ℕ)) : Except String ℕ :=
  if shape.length ≠ 2 then .error "Shape must have rank 2"
  else
    match shape.getD 1 none with
    | none => .error "Could not infer input size"
    | some w => .ok w

/-- Whether an `Except` result is an error. -/
def isErr : Except String ℕ → Bool
  | .error _ => true
  | .ok _ => false

/-- A bad `_linear` argument shape, in the claim's words: not rank-2, or a
feature width that is statically unknown or zero. -/
def linearArgBad (s : List (Option ℕ)) : Prop :=
  s.length ≠ 2 ∨ s.getD 1 none = none ∨ s.getD 1 none = some 0

/-- Boolean form of `linearArgBad`. -/
def badShapeB (s : List (Option ℕ)) : Bool :=
  decide (s.length ≠ 2)
  || (match s.getD 1 none with
      | none => true
      | some w => decide (w = 0))

lemma badShapeB_iff (s : List (Option ℕ)) : badShapeB s = true ↔ linearArgBad s := by
  unfold badShapeB linearArgBad
  rcases hd : s.getD 1 none with _ | w <;> simp

lemma isErr_sumArgWidths_eq_any (l : List (List (Option ℕ))) :
    isErr (sumArgWidths l) = l.any badShapeB := by
  induction l with
  | nil => rfl
  | cons s rest ih =>
    rw [List.any_cons, ← ih]
    by_cases h2 : s.length = 2
    · have hd2 : decide (s.length ≠ 2) = false := by simp [h2]
      cases hd : s.getD 1 none with
      | none =>
        have hL : sumArgWidths (s :: rest) = .error "Linear expects shape of arguments" := by
          simp only [sumArgWidths]
          rw [if_neg (by omega), hd]
        have hB : badShapeB s = true := by
          simp only [badShapeB]
          rw [hd2, hd]
          rfl
        rw [hL, hB, Bool.true_or]
        rfl
      | some w =>
        by_cases hw : w = 0
        · have hL : sumArgWidths (s :: rest) = .error "Linear expects shape of arguments" := by
            simp only [sumArgWidths]
            rw [if_neg (by omega), hd]
            simp [hw]
          have hB : badShapeB s = true := by
            simp only [badShapeB]
            rw [hd2, hd, Bool.false_or]
            exact decide_eq_true hw
          rw [hL, hB, Bool.true_or]
          rfl
        · have hB : badShapeB s = false := by
            simp only [badShapeB]
            rw [hd2, hd, Bool.false_or]
            exact decide_eq_false hw
          have hL : sumArgWidths (s :: rest)
              = (match sumArgWidths rest with
                 | .error e => .error e
                 | .ok t => .ok (w + t)) := by
            simp only [sumArgWidths]
            rw [if_neg (by omega), hd]
            simp [hw]
          rw [hB, Bool.false_or, hL]
          cases sumArgWidths rest <;> rfl
    · have hL : sumArgWidths (s :: rest) = .error "Linear is expecting 2D arguments" := by
        simp only [sumArgWidths]
        rw [if_pos h2]
      have hB : badShapeB s = true := by
        simp only [badShapeB]
        rw [decide_eq_true h2, Bool.true_or]
      rw [hL, hB, Bool.true_or]
      rfl

/-- C6: the linear map errors exactly when the argument list is absent or
empty, or some argument shape is not rank-2, or some feature width is
statically unknown or zero; and the step's input check (on a rank-2 static
shape) errors exactly when the feature dimension is statically unknown. -/
theorem error_conditions_characterized :
    (∀ oargs, isErr (linearCheckArgs oargs) = true ↔
       (oargs = none ∨ oargs = some []
        ∨ ∃ l, oargs = some l ∧ ∃ s ∈ l, linearArgBad s))
    ∧ (∀ b d, isErr (callInputSize [b, d]) = true ↔ d = none) := by
  constructor
  · intro oargs
    rcases oargs with _ | l
    · simp [linearCheckArgs, isErr]
    · by_cases hl : l = []
      · subst hl
        simp [linearCheckArgs, isErr]
      · rw [linearCheckArgs]
        rw [if_neg hl, isErr_sumArgWidths_eq_any, List.any_eq_true]
        constructor
        · rintro ⟨s, hs, hbad⟩
          exact Or.inr (Or.inr ⟨l, rfl, s, hs, (badShapeB_iff s).mp hbad⟩)
        · rintro (h | h | ⟨l2, hl2, s, hs, hbad⟩)
          · exact absurd h (by simp)
          · exact absurd h (by simp [hl])
          · cases Option.some.inj hl2
            exact ⟨s, hs, (badShapeB_iff s).mpr hbad⟩
  · intro b d
    rcases d with _ | w <;> simp [callInputSize, isErr]

/-- Witness for C6: a shape with an unknown feature width is rejected by
the linear map's validation. -/
theorem error_conditions_characterized_witness :
    isErr (linearCheckArgs (some [[some 3, none]])) = true :=
  (error_conditions_characterized.1 (some [[some 3, none]])).mpr
    (Or.inr (Or.inr ⟨[[some 3, none]], rfl, [some 3, none], by simp,
      Or.inr (Or.inl rfl)⟩))

/-- C7 (code behaviour): the variables created by the step never use the
cell's configured weight-initialization function — the realized variable
list is unchanged under any replacement of `weightInit`, and the direction
matrices `NormalColMatrix` are created with the enclosing scope's default
(`tf.get_variable` is called without an initializer argument), contradicting
the documented contract that the configured initializer determines their
initial values. -/
theorem configured_weight_init_unused (cfg : CellConfig) (inW : ℕ)
    (f : List ℕ → Mat) :
    cellVars { cfg with weightInit := f } inW = cellVars cfg inW
    ∧ ((cellVars cfg inW).filter (fun v =>
          v.name == "Multipli_Weight/Linear/NormalColMatrix"
          || v.name == "LSTM_Weight/Linear/NormalColMatrix")).map VarSpec.init
        = [InitKind.scopeDefault, InitKind.scopeDefault]
    ∧ InitKind.scopeDefault ≠ InitKind.configured := by
  refine ⟨rfl, ?_, by decide⟩
  rcases hnp : cfg.num_proj with _ | np <;>
    cases hpeep : cfg.use_peepholes <;>
      simp [cellVars, linearVars, hnp, hpeep, List.filter]

/-- `A` times its own transpose, entrywise: entry `(i, j)` is the dot
product of rows `i` and `j` of `A`. -/
def matMulT (A : Mat) : Mat := A.map (fun ri => A.map (fun rj => dot ri rj))

/-- The `m × m` identity matrix. -/
def identityMat (m : ℕ) : Mat :=
  (List.range m).map (fun i => (List.range m).map (fun j => if i = j then (1 : ℚ) else 0))

/-- Scalar times matrix, entrywise. -/
def scaleMat (s : ℚ) (A : Mat) : Mat := A.map (fun r => r.map (fun x => s * x))

/-- `orthogonal_initializer(scale)` applied to a rank-2 target `shape`,
given the factors `u` (shape `m × m`) and `vh` (shape `m × n`) that
`np.linalg.svd(a, full_matrices=False)` returns for the `m × n`
standard-normal sample `a` (with `m ≤ n`): the factor whose shape equals
the flattened target shape is chosen, reshaped (the identity for a rank-2
shape), sliced to `shape[0] × shape[1]`, and multiplied by `scale`.  The
random sample and the SVD itself are external (`numpy`); they enter only
through `u` and `vh`. -/
def orthogonalInit (scale : ℚ) (shape : List ℕ) (u vh : Mat) : Mat :=
  let m := shape.headD 0
  let n := (shape.drop 1).foldl (fun a b => a * b) 1
  let q := if u.length = m ∧ (u.headD []).length = n then u else vh
  scaleMat scale ((q.take (shape.getD 0 0)).map (fun r => r.take (shape.getD 1 0)))

lemma dot_map_mul (s : ℚ) (a b : Vec) :
    dot (a.map (fun x => s * x)) (b.map (fun x => s * x)) = s * s * dot a b := by
  induction a generalizing b with
  | nil => simp [dot]
  | cons x xs ih =>
    cases b with
    | nil => simp [dot]
    | cons y ys =>
      have h := ih ys
      simp only [dot, List.map_cons, List.zipWith_cons_cons, List.sum_cons] at h ⊢
      rw [h]
      ring

lemma matMulT_scaleMat (s : ℚ) (A : Mat) :
    matMulT (scaleMat s A) = scaleMat (s * s) (matMulT A) := by
  unfold matMulT scaleMat
  simp only [List.map_map]
  refine List.map_congr_left (fun ri _ => ?_)
  simp only [Function.comp_apply, List.map_map]
  refine List.map_congr_left (fun rj _ => ?_)
  simp only [Function.comp_apply]
  exact dot_map_mul s ri rj

lemma take_rows_cols_id (q : Mat) (m n : ℕ) (hl : q.length = m)
    (hr : ∀ r ∈ q, r.length = n) :
    (q.take m).map (fun r => r.take n) = q := by
  rw [List.take_of_length_le (le_of_eq hl)]
  calc q.map (fun r => r.take n)
      = q.map id := List.map_congr_left (fun r hrq => by
        simp [List.take_of_length_le (le_of_eq (hr r hrq))])
    _ = q := List.map_id q

/-- C9: for a target shape `(m, n)` with `m ≤ n` and scale `s`, if the SVD
factors are row-orthonormal (the contract of `np.linalg.svd`), the matrix
produced by the orthogonal weight-init function is row-orthonormal up to
the scale: its product with its own transpose is `s²` times the `m × m`
identity. -/
theorem orthogonal_init_row_orthonormal (s : ℚ) (m n : ℕ) (u vh : Mat)
    (hmn : m ≤ n)
    (hul : u.length = m) (hur : ∀ r ∈ u, r.length = m)
    (hvl : vh.length = m) (hvr : ∀ r ∈ vh, r.length = n)
    (hu : matMulT u = identityMat m)
    (hv : matMulT vh = identityMat m) :
    matMulT (orthogonalInit s [m, n] u vh) = scaleMat (s * s) (identityMat m) := by
  unfold orthogonalInit
  simp only [List.headD_cons, List.drop_succ_cons, List.drop_zero,
    List.foldl_cons, List.foldl_nil, one_mul, List.getD_cons_zero,
    List.getD_cons_succ]
  by_cases hmn2 : m = n
  · subst hmn2
    have hcond : u.length = m ∧ (u.headD []).length = m := by
      refine ⟨hul, ?_⟩
      cases hq : u with
      | nil => rw [hq] at hul; simp at hul; simp [hul]
      | cons r rs => exact hur r (by rw [hq]; exact List.mem_cons_self r rs)
    rw [if_pos hcond, take_rows_cols_id u m m hul hur, matMulT_scaleMat, hu]
  · have hcond : ¬(u.length = m ∧ (u.headD []).length = n) := by
      rintro ⟨h1, h2⟩
      cases hq : u with
      | nil =>
        rw [hq] at h1; simp at h1
        rw [hq] at h2; simp at h2
        omega
      | cons r rs =>
        have := hur r (by rw [hq]; exact List.mem_cons_self r rs)
        rw [hq] at h2
        simp at h2
        rw [this] at h2
        exact hmn2 h2
    rw [if_neg hcond, take_rows_cols_id vh m n hvl hvr, matMulT_scaleMat, hv]

/-- Witness for C9 at a concrete `1 × 2` shape. -/
theorem orthogonal_init_row_orthonormal_witness :
    matMulT (orthogonalInit 2 [1, 2] [[1]] [[1, 0]])
      = scaleMat (2 * 2) (identityMat 1) :=
  orthogonal_init_row_orthonormal 2 1 2 [[1]] [[1, 0]] (by omega)
    (by simp) (by simp) (by simp) (by simp)
    (by norm_num [matMulT, dot, identityMat, List.range_succ])
    (by norm_num [matMulT, dot, identityMat, List.range_succ])

/-- `_linear` with the division by the column norms guarded: the source
computes `1.0 / tf.norm(matrix, axis=0)` with no zero check, and in IEEE
arithmetic that reciprocal (and hence the output) is non-finite exactly
when some column norm is zero; this is modelled by returning `none` in
that case. -/
def linearChecked (prims : TFPrims) (p : LinearParams) (args : List Vec)
    (outW : ℕ) (bias : Bool) : Option Vec :=
  if (colNorms prims p.matrix outW).any (fun x => x == 0) then none
  else some (_linear prims p args outW bias)

/-- C10: the division-free result exists (every output entry finite, the
zero-division case unreachable) exactly when every column of the direction
matrix has nonzero Euclidean norm, and in that case it is the unguarded
`_linear` result. -/
theorem linear_requires_nonzero_column_norms (prims : TFPrims)
    (p : LinearParams) (args : List Vec) (outW : ℕ) (bias : Bool) :
    ((linearChecked prims p args outW bias).isSome = true
       ↔ ∀ j < outW, prims.norm (matCol p.matrix j) ≠ 0)
    ∧ ((∀ j < outW, prims.norm (matCol p.matrix j) ≠ 0) →
        linearChecked prims p args outW bias
          = some (_linear prims p args outW bias)) := by
  have hany : ((colNorms prims p.matrix outW).any (fun x => x == 0) = true)
      ↔ ∃ j < outW, prims.norm (matCol p.matrix j) = 0 := by
    simp [colNorms, List.any_eq_true]
  by_cases hzero : ∀ j < outW, prims.norm (matCol p.matrix j) ≠ 0
  · have hfalse : (colNorms prims p.matrix outW).any (fun x => x == 0) = false := by
      rw [← Bool.not_eq_true, hany]
      push_neg
      exact hzero
    simp only [linearChecked, hfalse, Bool.false_eq_true, if_false,
      Option.isSome_some]
    exact ⟨⟨fun _ => hzero, fun _ => trivial⟩, fun _ => trivial⟩
  · have hex : ∃ j < outW, prims.norm (matCol p.matrix j) = 0 := by
      push_neg at hzero
      exact hzero
    have htrue := hany.mpr hex
    simp only [linearChecked, htrue, if_true]
    refine ⟨by simp [hzero], fun h => absurd h hzero⟩

/-- Witness for C10 at concrete parameters with nonzero column norms. -/
theorem linear_requires_nonzero_column_norms_witness :
    linearChecked prims0 mp0 [[1], [1]] 2 true
      = some (_linear prims0 mp0 [[1], [1]] 2 true) :=
  (linear_requires_nonzero_column_norms prims0 mp0 [[1], [1]] 2 true).2
    (by intro j hj
        interval_cases j <;> norm_num [prims0, matCol, mp0])

end MLSTM
